import Mathlib

/-!
Verification of the Devatlas cross-source ingestion pipeline.

Shallow embedding of the core components described in `spec.md`:
the Record Formatter (`backend/services/github_fetch.py`), the
Deduplicator and thread re-sorter (`backend/slack_monitor.py`), the
Reference Linker (`backend/processTools/import_to_neo4j.py`), the
Graph Writer (`backend/processTools/neo4j_service.py`), the Identity
Normalizer (`backend/processTools/process_all_nodes.py`) and the
Retrieval Router (`backend/processTools/rag.py`).

Python-specific behaviour is modelled explicitly: `dict` as an
association list with insertion-order iteration and last-write-wins
values, `x in s` on strings as substring containment, truthiness of
`None` and `""`, and `dict.get(k, default)` returning the stored value
(which may be null) whenever the key is present.
-/

namespace Devatlas

/-! ### Python string and dict semantics -/

/-- `list.isPrefixL p l` : `p` is a prefix of `l` (on characters). -/
def isPrefixL : List Char → List Char → Bool
  | [], _ => true
  | _ :: _, [] => false
  | p :: ps, c :: cs => p == c && isPrefixL ps cs

/-- Substring search on character lists: does `pat` occur inside `l`? -/
def containsL (pat : List Char) : List Char → Bool
  | [] => isPrefixL pat []
  | c :: cs => isPrefixL pat (c :: cs) || containsL pat cs

/-- Python `pat in s` (substring containment). -/
def strContains (s pat : String) : Bool := containsL pat.data s.data

/-- Python `s.lower()` (ASCII case folding, which covers every string the
pipeline compares). -/
def lowerStr (s : String) : String := String.mk (s.data.map Char.toLower)

/-- Python `s.startswith(p)`. -/
def startsWith (s p : String) : Bool := isPrefixL p.data s.data

/-- Python `s.endswith(p)`. -/
def endsWith (s p : String) : Bool := isPrefixL p.data.reverse s.data.reverse

/-- Strict lexicographic order on character lists by code point —
Python's `<` on strings. -/
def lexLt : List Char → List Char → Bool
  | _, [] => false
  | [], _ :: _ => true
  | a :: as, b :: bs => a.toNat < b.toNat || (a.toNat = b.toNat && lexLt as bs)

/-- Python `s < t` on strings. -/
def strLt (s t : String) : Bool := lexLt s.data t.data

/-- Python `s <= t` on strings (the comparison behind `sorted`). -/
def strLe (s t : String) : Bool := strLt s t || s = t

/-- `created_at.replace('Z', '')` : drop every `'Z'` character (for the
ISO-8601 timestamps of this pipeline the only `'Z'` is the trailing UTC
marker). -/
def stripZ (s : String) : String := String.mk (s.data.filter (fun c => c != 'Z'))

/-- Truthiness of an optional string: Python treats both `None` and `""`
as falsy, so `if x:` succeeds exactly on `some s` with `s ≠ ""`. -/
def optTruthy : Option String → Option String
  | some s => if s = "" then none else some s
  | none => none

/-- Association-list lookup, modelling `d[k]` / `d.get(k)` on a Python
dict (keys are unique in every dict the pipeline builds). -/
def alookup {K V : Type} [DecidableEq K] : List (K × V) → K → Option V
  | [], _ => none
  | kv :: d, k => if kv.1 = k then some kv.2 else alookup d k

/-- Python `d[k] = v` on a dict: an existing key keeps its position and
gets the new value, a new key is appended (insertion-order iteration). -/
def adInsert {K V : Type} [DecidableEq K] : List (K × V) → K → V → List (K × V)
  | [], k, v => [(k, v)]
  | kv :: d, k, v => if kv.1 = k then (k, v) :: d else kv :: adInsert d k v

/-- Python `d.setdefault(k, []).append(v)` as used for the author-login
maps: append `v` to the list stored at `k`, creating the entry if absent. -/
def adAppend {K V : Type} [DecidableEq K] : List (K × List V) → K → V → List (K × List V)
  | [], k, v => [(k, [v])]
  | kv :: d, k, v => if kv.1 = k then (k, kv.2 ++ [v]) :: d else kv :: adAppend d k v

/-! ### Canonical records

The entity shapes that `import_to_neo4j.py`, `slack_monitor.py` and
`process_all_nodes.py` consume.  Optional fields model JSON keys that
may be missing or null; Python truthiness is applied exactly where the
source applies it. -/

/-- A Message entity (`slackMessages` array element / entity-storage
message).  `authorId`/`authorLogin` are attached post-hoc by the
Identity Normalizer. -/
structure Msg where
  id : String
  slackId : String
  channelId : Option String
  text : String
  threadTs : Option String
  createdAt : Option String
  authorId : Option String
  authorLogin : Option String
deriving DecidableEq

/-! ### Reference Linker: REPLIES_TO
(`import_to_neo4j.create_relationships`, lines 247-284) -/

/-- The `ts_to_id` dict: for every message with a truthy `createdAt`,
map `createdAt.replace('Z','')` to the message id (later messages
overwrite earlier ones on a collision, as dict assignment does). -/
def tsMap (msgs : List Msg) : List (String × String) :=
  msgs.foldl
    (fun d m =>
      match optTruthy m.createdAt with
      | some c => adInsert d (stripZ c) m.id
      | none => d)
    []

/-- Lookup of a `threadTs` value in the timestamp map. -/
def tsLookup (msgs : List Msg) (t : String) : Option String :=
  alookup (tsMap msgs) t

/-- The loop body of the REPLIES_TO pass for one message: if the
message has a truthy `threadTs` that is a key of `ts_to_id`, emit
`(message id, parent id)` unless the parent id equals the message's
own id. -/
def repliesToStep (msgs : List Msg) (m : Msg) : Option (String × String) :=
  match optTruthy m.threadTs with
  | some t =>
      match tsLookup msgs t with
      | some p => if p ≠ m.id then some (m.id, p) else none
      | none => none
  | none => none

/-- The REPLIES_TO pass over the message list. -/
def repliesToEdges (msgs : List Msg) : List (String × String) :=
  msgs.filterMap (repliesToStep msgs)

/-- The spec's description of the REPLIES_TO rule (§4.4): an edge `e`
exists exactly for a message with a non-null thread-parent timestamp
whose lookup in the timestamp map succeeds and yields an id different
from the message's own. -/
def repliesToSpec (msgs : List Msg) (e : String × String) : Prop :=
  ∃ m ∈ msgs, ∃ t, optTruthy m.threadTs = some t ∧
    tsLookup msgs t = some e.2 ∧ e.1 = m.id ∧ e.2 ≠ m.id

/-- A PullRequest record as consumed by `import_to_neo4j.py`
(`pullRequests` array element).  `body` is `none` when the JSON field
is missing or null — `create_relationships` normalizes both to `""`
via `pr.get("body", "") or ""`. -/
structure PRRec where
  id : String
  number : Option Int
  body : Option String
  authorId : Option String
  repositoryId : Option String
  authorLogin : Option String
deriving DecidableEq

/-- An Issue record (`issues` array element), same consumed shape. -/
structure IssueRec where
  id : String
  number : Option Int
  body : Option String
  authorId : Option String
  repositoryId : Option String
  authorLogin : Option String
deriving DecidableEq

/-- Integer truthiness: `if not issue_number: continue` also skips `0`. -/
def intTruthy : Option Int → Option Int
  | some n => if n = 0 then none else some n
  | none => none

/-! ### Reference Linker: join-message filter and the direct passes
(`import_to_neo4j.import_nodes` lines 76-82 and
`create_relationships` lines 207-245) -/

/-- `msg.get("text", "").endswith("has joined the channel")`. -/
def isJoinMsg (m : Msg) : Bool := endsWith m.text "has joined the channel"

/-- The message list each pass operates on: unless
`--include-all-messages` is given, join messages are filtered out. -/
def passMessages (includeAll : Bool) (msgs : List Msg) : List Msg :=
  if includeAll then msgs else msgs.filter (fun m => !isJoinMsg m)

/-- AUTHORED for Slack messages: `(author id, message id)` for every
message with a truthy `authorId`. -/
def authoredMsgEdges (msgs : List Msg) : List (String × String) :=
  msgs.filterMap (fun m => (optTruthy m.authorId).map (fun a => (a, m.id)))

/-- POSTED_IN: `(message id, channel id)` for every message with a
truthy `channelId`. -/
def postedInEdges (msgs : List Msg) : List (String × String) :=
  msgs.filterMap (fun m => (optTruthy m.channelId).map (fun c => (m.id, c)))

/-! ### Reference Linker: REFERENCES (CodeChange → Ticket)
(`create_relationships` lines 170-205) -/

/-- A `REFERENCES` edge from a PullRequest to an Issue, carrying the
`referenceType` property. -/
structure RefEdge where
  prId : String
  issueId : String
  referenceType : String
deriving DecidableEq

/-- The fixed reference phrasings tested against the lowercased body. -/
def refPatterns (n : Int) : List String :=
  ["fixes #" ++ toString n, "closes #" ++ toString n, "resolves #" ++ toString n,
   "related to #" ++ toString n, "##" ++ toString n]

/-- `pr.get("body", "") or ""` followed by `.lower()`. -/
def prBodyLower (pr : PRRec) : String := lowerStr (pr.body.getD "")

/-- The REFERENCES pass: for every PR, lowercase its body and test the
reference phrasings against every issue's number; on a match emit one
edge whose `referenceType` is `"fixes"` when the substring `"fixes"`
occurs in the body and `"related"` otherwise. -/
def referencesEdges (prs : List PRRec) (issues : List IssueRec) : List RefEdge :=
  prs.flatMap
    (fun pr =>
      let body := prBodyLower pr
      issues.filterMap
        (fun iss =>
          match intTruthy iss.number with
          | none => none
          | some n =>
              if (refPatterns n).any (fun pat => strContains body pat) then
                some ⟨pr.id, iss.id, if strContains body "fixes" then "fixes" else "related"⟩
              else none))

/-! ### Reference Linker: REFERENCES_GITHUB
(`create_relationships` lines 286-445) -/

/-- A Message→PullRequest/Issue reference edge, with the relationship
type (`REFERENCES_GITHUB` or `REFERENCES_GITHUB_BY_AUTHOR`), the target
label, and the edge properties. -/
structure GhRef where
  msgId : String
  targetLabel : String
  targetId : String
  relType : String
  referenceType : String
  authorMatch : Bool
deriving DecidableEq

/-- `pr_number_to_id`: number → PR id for PRs with a truthy number. -/
def prNumberMap (prs : List PRRec) : List (Int × String) :=
  prs.foldl
    (fun d pr =>
      match intTruthy pr.number with
      | some n => adInsert d n pr.id
      | none => d)
    []

/-- `issue_number_to_id`: number → issue id for issues with a truthy
number. -/
def issueNumberMap (issues : List IssueRec) : List (Int × String) :=
  issues.foldl
    (fun d iss =>
      match intTruthy iss.number with
      | some n => adInsert d n iss.id
      | none => d)
    []

/-- `author_login_to_prs`: login → list of PR ids, in encounter order. -/
def prLoginMap (prs : List PRRec) : List (String × List String) :=
  prs.foldl
    (fun d pr =>
      match optTruthy pr.authorLogin with
      | some a => adAppend d a pr.id
      | none => d)
    []

/-- `author_login_to_issues`: login → list of issue ids. -/
def issueLoginMap (issues : List IssueRec) : List (String × List String) :=
  issues.foldl
    (fun d iss =>
      match optTruthy iss.authorLogin with
      | some a => adAppend d a iss.id
      | none => d)
    []

/-- PR mention phrasings for number `n`. -/
def prPatterns (n : Int) : List String :=
  ["pr #" ++ toString n, "pr#" ++ toString n, "pr " ++ toString n,
   "pull request #" ++ toString n, "pull request " ++ toString n,
   "pull/" ++ toString n, "#" ++ toString n]

/-- Issue mention phrasings for number `n`. -/
def issuePatterns (n : Int) : List String :=
  ["issue #" ++ toString n, "issue#" ++ toString n, "issue " ++ toString n,
   "#" ++ toString n, "issues/" ++ toString n]

/-- `author_login and entity_author and author_login == entity_author`,
collapsed to its truthiness (the Python expression itself evaluates to
`None`/`""` instead of `False` when a handle is falsy; the stored
property is falsy in exactly the same cases). -/
def authorMatchFlag (a b : Option String) : Bool :=
  match optTruthy a, optTruthy b with
  | some x, some y => x = y
  | _, _ => false

/-- The explicit-mention and author-context edges emitted for one
message (the body of the `for msg in slack_messages` loop). -/
def msgGhEdges (prs : List PRRec) (issues : List IssueRec) (m : Msg) : List GhRef :=
  let text := lowerStr m.text
  if text = "" then []
  else
    let prMentions :=
      (prNumberMap prs).filterMap
        (fun nid =>
          if (prPatterns nid.1).any (fun pat => strContains text pat) then
            let prAuthor := ((prs.find? (fun pr => pr.id = nid.2)).bind (fun pr => pr.authorLogin))
            some ⟨m.id, "PullRequest", nid.2, "REFERENCES_GITHUB", "mention",
                  authorMatchFlag m.authorLogin prAuthor⟩
          else none)
    let issMentions :=
      (issueNumberMap issues).filterMap
        (fun nid =>
          if (issuePatterns nid.1).any (fun pat => strContains text pat) then
            let issAuthor := ((issues.find? (fun iss => iss.id = nid.2)).bind (fun iss => iss.authorLogin))
            some ⟨m.id, "Issue", nid.2, "REFERENCES_GITHUB", "mention",
                  authorMatchFlag m.authorLogin issAuthor⟩
          else none)
    let prByAuthor :=
      match optTruthy m.authorLogin with
      | some a => ((alookup (prLoginMap prs) a).getD []).map
          (fun pid => ⟨m.id, "PullRequest", pid, "REFERENCES_GITHUB_BY_AUTHOR", "author_context", true⟩)
      | none => []
    let issByAuthor :=
      match optTruthy m.authorLogin with
      | some a => ((alookup (issueLoginMap issues) a).getD []).map
          (fun iid => ⟨m.id, "Issue", iid, "REFERENCES_GITHUB_BY_AUTHOR", "author_context", true⟩)
      | none => []
    prMentions ++ issMentions ++ prByAuthor ++ issByAuthor

/-- The full REFERENCES_GITHUB pass over a message list. -/
def ghRefEdges (msgs : List Msg) (prs : List PRRec) (issues : List IssueRec) : List GhRef :=
  msgs.flatMap (msgGhEdges prs issues)

/-! ### Retrieval Router (`rag.determine_best_node_type`) -/

/-- The fixed per-type keyword lists (`node_type_keywords`). -/
def nodeTypeKeywords : List (String × List String) :=
  [("PullRequest", ["pr", "pull request", "code change", "merge", "branch", "commit",
      "git", "repository", "repo", "developer", "contribution", "feature", "oauth",
      "implementation"]),
   ("Issue", ["issue", "bug", "ticket", "problem", "task", "feature request",
      "enhancement", "error", "defect", "tracker"]),
   ("Message", ["chat", "slack", "message", "conversation", "discussion", "said",
      "mentioned", "talk", "channel", "communication", "discuss"]),
   ("TextChunk", [])]

/-- `nt in available_node_types and available_node_types[nt] > 0`. -/
def availPos (avail : List (String × Nat)) (nt : String) : Bool :=
  match alookup avail nt with
  | some n => n > 0
  | none => false

/-- `available_node_types[nt]` inside the scoring loop; every key looked
up there is a key of the dict, so the `0` default is never taken. -/
def availGetD (avail : List (String × Nat)) (nt : String) : Nat :=
  (alookup avail nt).getD 0

/-- `any(term in query for term in terms)`. -/
def anyIn (query : String) (terms : List String) : Bool :=
  terms.any (fun t => strContains query t)

/-- Bump one node type's score (`scores[node_type] += 1`). -/
def bumpScore (sc : List (String × Nat)) (nt : String) : List (String × Nat) :=
  sc.map (fun kv => if kv.1 = nt then (kv.1, kv.2 + 1) else kv)

/-- `determine_best_node_type(query_text, available_node_types)`:
returns `(node_label, index_name, reason)`.  The availability dict is
an insertion-ordered association list, like the Python dict. -/
def determine_best_node_type (query_text : String) (avail : List (String × Nat)) :
    String × String × String :=
  let query := lowerStr query_text
  if availPos avail "Issue" &&
      anyIn query ["who reported", "issue reporter", "bug report", "filed an issue"] then
    ("Issue", "issue_vector_idx", "Query specifically asks about issues")
  else if availPos avail "PullRequest" &&
      anyIn query ["who wrote", "who implemented", "who coded", "who developed",
                   "oauth", "integration", "author"] then
    ("PullRequest", "pullrequest_vector_idx", "Query asks about code authorship or implementation")
  else if availPos avail "Message" &&
      anyIn query ["who said", "who mentioned", "who discussed", "who talked",
                   "conversation", "chat", "slack"] then
    ("Message", "message_vector_idx", "Query asks about discussions or conversations")
  else
    let scores0 : List (String × Nat) := avail.map (fun kv => (kv.1, 0))
    let scores := nodeTypeKeywords.foldl
      (fun sc ntk =>
        if availPos avail ntk.1 then
          ntk.2.foldl (fun sc' kw => if strContains query kw then bumpScore sc' ntk.1 else sc') sc
        else sc)
      scores0
    let best := scores.foldl
      (fun (st : Int × Option String) kv =>
        if (kv.2 : Int) > st.1 && availGetD avail kv.1 > 0 then ((kv.2 : Int), some kv.1) else st)
      (-1, none)
    match best.2 with
    | some bt =>
        if best.1 > 0 then
          (bt, lowerStr bt ++ "_vector_idx",
           "Query contains " ++ toString best.1 ++ " keywords related to " ++ bt)
        else
          match ["TextChunk", "PullRequest", "Issue", "Message"].find? (availPos avail) with
          | some nt => (nt, lowerStr nt ++ "_vector_idx", "Fallback to " ++ nt ++ " based on available data")
          | none => ("TextChunk", "textchunk_vector_idx", "Default fallback")
    | none =>
        match ["TextChunk", "PullRequest", "Issue", "Message"].find? (availPos avail) with
        | some nt => (nt, lowerStr nt ++ "_vector_idx", "Fallback to " ++ nt ++ " based on available data")
        | none => ("TextChunk", "textchunk_vector_idx", "Default fallback")

/-- Does a router result signal the spec's documented "no index
available" error state?  Taken as: the reason text mentions "no index"
(the result type of the source function is a bare triple, so the reason
string is the only place such a state could be reported). -/
def isNoIndexResult (r : String × String × String) : Bool :=
  strContains (lowerStr r.2.2) "no index"

/-! ### Graph Writer (`neo4j_service.Neo4jService.create_node`) -/

/-- Node properties: a Cypher property map (string-valued, which covers
every property the claims touch). -/
abbrev PropMap := List (String × String)

/-- Lookup of one property. -/
def getProp (p : PropMap) (k : String) : Option String := alookup p k

/-- Does the map carry key `k`? -/
def hasKey (p : PropMap) (k : String) : Bool := (getProp p k).isSome

/-- Cypher `SET n += $props`: properties present in `new` are written,
all other properties of `old` are retained. -/
def setPlus (old new : PropMap) : PropMap :=
  old.filter (fun kv => !(new.any (fun kv' => kv'.1 = kv.1))) ++ new

/-- A stored node: label plus property map. -/
structure GNode where
  label : String
  props : PropMap
deriving DecidableEq

/-- The graph-store node set (edges are irrelevant to the node-upsert
claim). -/
abbrev GState := List GNode

/-- `MERGE (n:label {id: $id})` matching: same label, same `id`
property. -/
def nodeMatches (label id : String) (n : GNode) : Bool :=
  n.label = label && getProp n.props "id" = some id

/-- `create_node(label, properties)`: reject a missing or falsy id;
otherwise `MERGE` on `(label, id)` — update an existing node with
`SET n += $properties`, or create a node `{id: id}` and apply the same
`SET`.  Returns the new state and the success flag. -/
def create_node (st : GState) (label : String) (props : PropMap) : GState × Bool :=
  match optTruthy (getProp props "id") with
  | none => (st, false)
  | some id =>
      if st.any (nodeMatches label id) then
        (st.map (fun n => if nodeMatches label id n then ⟨n.label, setPlus n.props props⟩ else n), true)
      else
        (st ++ [⟨label, setPlus [("id", id)] props⟩], true)

/-- The property map of the `(label, id)` node, if present. -/
def findNodeProps (st : GState) (label id : String) : Option PropMap :=
  (st.find? (nodeMatches label id)).map (fun n => n.props)

/-- One property of the `(label, id)` node. -/
def propOf (st : GState) (label id k : String) : Option String :=
  (findNodeProps st label id).bind (fun p => getProp p k)

/-! ### Record Formatter (`services/github_fetch.py`)

The raw GitHub API records are JSON objects, modelled as association
lists of Python values so that a key can be present with a null value —
the case `dict.get(key, default)` does NOT default on. -/

/-- A Python/JSON value as far as the formatters inspect one. -/
inductive PyVal where
  | pynone
  | pystr (s : String)
  | pyint (n : Int)
  | pydict (fields : List (String × PyVal))

/-- A raw record: a JSON object. -/
abbrev RawRec := List (String × PyVal)

/-- `d.get(k, default)`: the stored value (even null) when the key is
present, the default otherwise. -/
def pyGet (d : RawRec) (k : String) (dflt : PyVal) : PyVal :=
  (alookup d k).getD dflt

/-- Python `str(...)` on the values that reach it. -/
def pyStrOf : PyVal → String
  | .pynone => "None"
  | .pystr s => s
  | .pyint n => toString n
  | .pydict _ => ""

/-- Python truthiness of a value. -/
def pyTruthy : PyVal → Bool
  | .pynone => false
  | .pystr s => s ≠ ""
  | .pyint n => n ≠ 0
  | .pydict fields => !fields.isEmpty

/-- The formatted pull-request record
(`GitHubFetcher.fetch_pull_requests`, lines 63-75; the identical shape
is built in `fetch_pull_request_by_number` and
`fetch_all_pull_requests`). -/
structure FormattedPR where
  id : String
  number : PyVal
  title : PyVal
  body : PyVal
  state : PyVal
  createdAt : PyVal
  authorId : Option String
  repositoryId : String


/-- `f"user-{pr.get('user', {}).get('id', '')}" if pr.get('user') else None`
(a truthy non-dict `user` would raise in Python and is not modelled). -/
def rawAuthorId (raw : RawRec) : Option String :=
  match pyGet raw "user" .pynone with
  | .pydict u => if u.isEmpty then none else some ("user-" ++ pyStrOf (pyGet u "id" (.pystr "")))
  | _ => none

/-- The pull-request formatter.  Note: the PR's own `id` is
`str(pr.get("id", ""))` — coerced to string but NOT prefixed with an
entity type, unlike `authorId` and `repositoryId`. -/
def formatPR (raw : RawRec) (owner repo : String) : FormattedPR :=
  { id := pyStrOf (pyGet raw "id" (.pystr ""))
    number := pyGet raw "number" .pynone
    title := pyGet raw "title" (.pystr "")
    body := pyGet raw "body" (.pystr "")
    state := pyGet raw "state" (.pystr "")
    createdAt := pyGet raw "created_at" (.pystr "")
    authorId := rawAuthorId raw
    repositoryId := "repo-" ++ owner ++ "-" ++ repo }

/-- The formatted issue record (`fetch_all_issues`, lines 288-297;
`fetch_issues` builds the identical shape). -/
structure FormattedIssue where
  id : String
  number : PyVal
  title : PyVal
  body : PyVal
  state : PyVal
  createdAt : PyVal
  authorId : Option String
  repositoryId : String


/-- The issue formatter: `"id": f"issue-{issue.get('id', '')}"`. -/
def formatIssue (raw : RawRec) (owner repo : String) : FormattedIssue :=
  { id := "issue-" ++ pyStrOf (pyGet raw "id" (.pystr ""))
    number := pyGet raw "number" .pynone
    title := pyGet raw "title" (.pystr "")
    body := pyGet raw "body" (.pystr "")
    state := pyGet raw "state" (.pystr "")
    createdAt := pyGet raw "created_at" (.pystr "")
    authorId := rawAuthorId raw
    repositoryId := "repo-" ++ owner ++ "-" ++ repo }

/-- The formatted repository record (`fetch_repository_info`). -/
structure FormattedRepo where
  id : String
  name : PyVal
  fullName : PyVal
  description : PyVal


/-- The repository formatter: `"id": f"repo-{repo_data.get('id', '')}"`;
`description` is `repo_data.get("description", "")`. -/
def formatRepo (raw : RawRec) : FormattedRepo :=
  { id := "repo-" ++ pyStrOf (pyGet raw "id" (.pystr ""))
    name := pyGet raw "name" (.pystr "")
    fullName := pyGet raw "full_name" (.pystr "")
    description := pyGet raw "description" (.pystr "") }

/-- The formatted contributor record (`fetch_contributors` /
`fetch_all_contributors`). -/
structure FormattedContributor where
  id : String
  githubLogin : PyVal
  name : PyVal
  email : PyVal


/-- The contributor formatter: `"id": f"user-{contrib.get('id', '')}"`;
`name`/`email` come from the detailed user record. -/
def formatContributor (contrib userData : RawRec) : FormattedContributor :=
  { id := "user-" ++ pyStrOf (pyGet contrib "id" (.pystr ""))
    githubLogin := pyGet contrib "login" (.pystr "")
    name := pyGet userData "name" (.pystr "")
    email := pyGet userData "email" (.pystr "") }

/-- Is a string id prefixed by an entity type, in the sense of the
spec's examples `"repo-<id>"`, `"issue-<id>"`, `"user-<id>"` (and any
analogous prefix for pull requests)?  Any such id contains a `'-'`
separator, so an id with no `'-'` at all is prefixed by no entity
type. -/
def hasTypePrefix (s : String) : Bool := strContains s "-"

/-! ### Deduplicator (`slack_monitor.get_entity_message_data`,
lines 300-311) -/

/-- The sort key of the survivor selection:
`1 if m.get("slackId", "").startswith("U") else 0`. -/
def dedupKey (m : Msg) : Nat := if startsWith m.slackId "U" then 1 else 0

/-- Python's `sorted` is stable, and `List.insertionSort` is the stable
sort, so the sorted duplicate group is `insertionSort` by the key. -/
def dedupSortGroup (g : List Msg) : List Msg :=
  g.insertionSort (fun a b => dedupKey a ≤ dedupKey b)

/-- The survivor of a duplicate group (`sorted_group[0]`; the source
guards the empty group with `if not group: continue`, hence `Option`). -/
def dedupSurvivor (g : List Msg) : Option Msg := (dedupSortGroup g).head?

/-! ### Thread re-sorter (`slack_monitor.get_entity_message_data`,
lines 317-342) -/

/-- `m.get("createdAt", "")` as a sort key (a null `createdAt` is
modelled as `""`; Python would raise on a null/string comparison). -/
def createdAtStr (m : Msg) : String := m.createdAt.getD ""

/-- `message.get("threadTs") or message.get("createdAt")`: the thread
key is the `threadTs` when truthy, else the message's own `createdAt`. -/
def threadKey (m : Msg) : String :=
  match optTruthy m.threadTs with
  | some t => t
  | none => createdAtStr m

/-- The distinct thread keys in first-seen order (dict key order of
`thread_groups`). -/
def firstSeenKeys (msgs : List Msg) : List String :=
  msgs.foldl (fun ks m => if threadKey m ∈ ks then ks else ks ++ [threadKey m]) []

/-- One thread group, in encounter order (`thread_groups[key]`),
sorted chronologically by `createdAt` (stable, like Python `.sort`). -/
def threadGroup (msgs : List Msg) (k : String) : List Msg :=
  (msgs.filter (fun m => threadKey m = k)).insertionSort
    (fun a b => strLe (createdAtStr a) (createdAtStr b) = true)

/-- The full re-sort: sort the thread keys (`sorted(thread_groups.keys())`),
then flatten the chronologically sorted groups in that key order. -/
def sortMessages (msgs : List Msg) : List Msg :=
  (((firstSeenKeys msgs).insertionSort (fun a b => strLe a b = true)).map (threadGroup msgs)).flatten

/-! ### Identity Normalizer (`processTools/process_all_nodes.py`) -/

/-- A user/contributor record as consumed by the normalizer. -/
structure UserRec where
  id : String
  githubLogin : Option String
  name : Option String
  email : Option String
  slackId : Option String
deriving DecidableEq

/-- The curated cross-reference table (`GITHUB_TO_SLACK_MAPPING`). -/
def githubToSlackMapping : List (String × String) :=
  [("MichaelPeng123", "michael123.peng"),
   ("thanosaw", "uswangandrew"),
   ("Yatsz", "hyunkim03")]

/-- `add_slack_ids_to_users` on one user: attach the mapped Slack id
when the user's `githubLogin` is a key of the table, else return the
record unchanged (`github_login in GITHUB_TO_SLACK_MAPPING` is a plain
key test, so a missing login never matches). -/
def addSlackIdToUser (u : UserRec) : UserRec :=
  match u.githubLogin with
  | some gl =>
      match alookup githubToSlackMapping gl with
      | some sid => { u with slackId := some sid }
      | none => u
  | none => u

/-- `add_slack_ids_to_users` over the list. -/
def addSlackIdsToUsers (users : List UserRec) : List UserRec :=
  users.map addSlackIdToUser

/-- `enrich_slack_messages` on one message: when the message's
`slackId` is truthy and a key of the reverse-lookup table, attach
`authorId` and `authorLogin`; otherwise the message is appended
unchanged. -/
def enrichSlackMessage (table : List (String × (String × String))) (m : Msg) : Msg :=
  match optTruthy (some m.slackId) with
  | some sid =>
      match alookup table sid with
      | some uinfo => { m with authorId := some uinfo.1, authorLogin := some uinfo.2 }
      | none => m
  | none => m

/-- `enrich_slack_messages` over the list (`updated_messages`). -/
def enrichSlackMessages (table : List (String × (String × String))) (msgs : List Msg) : List Msg :=
  msgs.map (enrichSlackMessage table)

/-! ### Concrete records used by witnesses and counterexamples -/

/-- Is a value a (non-null) string? -/
def isPyStr : PyVal → Bool
  | .pystr _ => true
  | _ => false

/-- A thread parent: `createdAt` = `"t1Z"`, no `threadTs`. -/
def msgParent : Msg :=
  { id := "p", slackId := "alice", channelId := some "ch", text := "hello",
    threadTs := none, createdAt := some "t1Z", authorId := none, authorLogin := none }

/-- A reply to `msgParent`: its `threadTs` `"t1"` equals the parent's
`createdAt` with the UTC marker stripped. -/
def msgChild : Msg :=
  { id := "c", slackId := "bob", channelId := some "ch", text := "re",
    threadTs := some "t1", createdAt := some "t2Z", authorId := none, authorLogin := none }

/-- Duplicate-group member with a human-readable handle. -/
def msgDupA : Msg :=
  { id := "m1", slackId := "alice", channelId := some "ch", text := "dup",
    threadTs := none, createdAt := some "t0Z", authorId := none, authorLogin := none }

/-- Same content key as `msgDupA`, different id and handle (also
human-readable). -/
def msgDupB : Msg :=
  { id := "m2", slackId := "bob", channelId := some "ch", text := "dup",
    threadTs := none, createdAt := some "t0Z", authorId := none, authorLogin := none }

/-- A standalone message whose thread key is its own `createdAt`
`"2024"`. -/
def msgStandalone : Msg :=
  { id := "a", slackId := "u", channelId := some "ch", text := "x",
    threadTs := none, createdAt := some "2024", authorId := none, authorLogin := none }

/-- An orphan reply: thread key `"2020"` (its `threadTs`), but its own
`createdAt` is `"2025"`, later than `msgStandalone`'s. -/
def msgOrphanReply : Msg :=
  { id := "b", slackId := "u", channelId := some "ch", text := "y",
    threadTs := some "2020", createdAt := some "2025", authorId := none, authorLogin := none }

/-- A join message (`text` ends with the join marker). -/
def msgJoin : Msg :=
  { id := "j", slackId := "carol", channelId := some "ch",
    text := "carol has joined the channel",
    threadTs := none, createdAt := some "t3Z", authorId := some "user-3", authorLogin := some "carol" }

/-- A PR whose body is `"Fixes #42"`. -/
def prFixes42 : PRRec :=
  { id := "pr-1", number := some 7, body := some "Fixes #42",
    authorId := none, repositoryId := none, authorLogin := none }

/-- A Ticket with `number = 42`. -/
def issue42 : IssueRec :=
  { id := "issue-42", number := some 42, body := some "",
    authorId := none, repositoryId := none, authorLogin := none }

/-- A raw GitHub pull-request record with integer id `55`. -/
def rawPR55 : RawRec :=
  [("id", .pyint 55), ("number", .pyint 7), ("title", .pystr "t"),
   ("body", .pystr "b"), ("state", .pystr "open"), ("created_at", .pystr "c"),
   ("user", .pydict [("id", .pyint 9)])]

/-- A raw pull-request record whose `body` key is present but null. -/
def rawPRNullBody : RawRec := [("id", .pyint 1), ("body", .pynone)]

/-- An availability map in which no entity type has an embedded member. -/
def availAllZero : List (String × Nat) :=
  [("TextChunk", 0), ("PullRequest", 0), ("Issue", 0), ("Message", 0)]

/-- A user whose code-host handle has no cross-reference entry. -/
def userUnmapped : UserRec :=
  { id := "user-9", githubLogin := some "ghost", name := some "G", email := none,
    slackId := none }

/-! ## Lemmas

Order facts for the sort relations, dictionary lemmas, and the claim
theorems. -/

theorem lexLt_irrefl : ∀ l : List Char, lexLt l l = false := by
  intro l
  induction l with
  | nil => rfl
  | cons a as ih => simp [lexLt, ih]

theorem lexLt_trans : ∀ {a b c : List Char},
    lexLt a b = true → lexLt b c = true → lexLt a c = true := by
  intro a
  induction a with
  | nil =>
      intro b c hab hbc
      cases c with
      | nil => cases b <;> simp_all [lexLt]
      | cons c cs => simp [lexLt]
  | cons x xs ih =>
      intro b c hab hbc
      cases b with
      | nil => simp [lexLt] at hab
      | cons y ys =>
          cases c with
          | nil => simp [lexLt] at hbc
          | cons z zs =>
              simp only [lexLt, Bool.or_eq_true, Bool.and_eq_true, decide_eq_true_eq] at *
              rcases hab with h1 | ⟨h1, h1'⟩ <;> rcases hbc with h2 | ⟨h2, h2'⟩
              · exact Or.inl (Nat.lt_trans h1 h2)
              · exact Or.inl (h2 ▸ h1)
              · exact Or.inl (h1 ▸ h2)
              · exact Or.inr ⟨h1.trans h2, ih h1' h2'⟩

theorem lexLt_trichotomy : ∀ a b : List Char,
    lexLt a b = true ∨ a = b ∨ lexLt b a = true := by
  intro a
  induction a with
  | nil =>
      intro b
      cases b with
      | nil => exact Or.inr (Or.inl rfl)
      | cons y ys => exact Or.inl rfl
  | cons x xs ih =>
      intro b
      cases b with
      | nil => exact Or.inr (Or.inr rfl)
      | cons y ys =>
          rcases Nat.lt_trichotomy x.toNat y.toNat with h | h | h
          · exact Or.inl (by simp [lexLt, h])
          · have hxy : x = y := Char.ext (UInt32.toNat.inj h)
            rcases ih ys with h' | h' | h'
            · exact Or.inl (by simp [lexLt, h, h'])
            · exact Or.inr (Or.inl (by rw [hxy, h']))
            · exact Or.inr (Or.inr (by simp [lexLt, h.symm, h', hxy]))
          · exact Or.inr (Or.inr (by simp [lexLt, h]))

theorem strLe_total (s t : String) : strLe s t = true ∨ strLe t s = true := by
  rcases lexLt_trichotomy s.data t.data with h | h | h
  · exact Or.inl (by simp [strLe, strLt, h])
  · have : s = t := by
      cases s
      cases t
      exact congrArg String.mk h
    exact Or.inl (by simp [strLe, this])
  · exact Or.inr (by simp [strLe, strLt, h])

theorem strLt_asymm {s t : String} (h : strLt s t = true) : strLt t s = false := by
  by_contra hc
  have h2 : strLt t s = true := by
    cases h3 : strLt t s
    · exact absurd h3 hc
    · rfl
  have := lexLt_trans (a := s.data) h h2
  rw [lexLt_irrefl] at this
  exact Bool.false_ne_true this

theorem strLe_trans {a b c : String} (h1 : strLe a b = true) (h2 : strLe b c = true) :
    strLe a c = true := by
  simp only [strLe, Bool.or_eq_true, decide_eq_true_eq] at *
  rcases h1 with h1 | h1
  · rcases h2 with h2 | h2
    · exact Or.inl (lexLt_trans h1 h2)
    · exact Or.inl (h2 ▸ h1)
  · subst h1
    exact h2

theorem strLe_of_strLt {a b : String} (h : strLt a b = true) : strLe a b = true := by
  simp [strLe, h]

theorem strLt_of_strLe_of_ne {a b : String} (h : strLe a b = true) (hne : a ≠ b) :
    strLt a b = true := by
  simp only [strLe, Bool.or_eq_true, decide_eq_true_eq] at h
  rcases h with h | h
  · exact h
  · exact absurd h hne

instance : IsTotal String (fun a b => strLe a b = true) := ⟨strLe_total⟩

instance : IsTrans String (fun a b => strLe a b = true) :=
  ⟨fun _ _ _ h h' => strLe_trans h h'⟩

instance : IsTotal Msg (fun a b => strLe (createdAtStr a) (createdAtStr b) = true) :=
  ⟨fun a b => strLe_total (createdAtStr a) (createdAtStr b)⟩

instance : IsTrans Msg (fun a b => strLe (createdAtStr a) (createdAtStr b) = true) :=
  ⟨fun _ _ _ h h' => strLe_trans h h'⟩

/-! ### Dictionary lemmas -/

theorem alookup_cons {K V : Type} [DecidableEq K] (kv : K × V) (d : List (K × V)) (t : K) :
    alookup (kv :: d) t = if kv.1 = t then some kv.2 else alookup d t := rfl

theorem alookup_adInsert {K V : Type} [DecidableEq K] (d : List (K × V)) (k t : K) (v : V) :
    alookup (adInsert d k v) t = if t = k then some v else alookup d t := by
  induction d with
  | nil =>
      show (if k = t then some v else none) = if t = k then some v else none
      by_cases h : t = k
      · subst h
        simp
      · rw [if_neg (fun hh => h hh.symm), if_neg h]
  | cons kv d ih =>
      by_cases h1 : kv.1 = k
      · rw [show adInsert (kv :: d) k v = (k, v) :: d from by rw [adInsert, if_pos h1]]
        by_cases h2 : t = k
        · subst h2
          show (if t = t then some v else _) = if t = t then some v else _
          simp
        · rw [alookup_cons, alookup_cons]
          show (if k = t then some v else alookup d t) = _
          rw [if_neg (fun hh => h2 hh.symm), if_neg h2,
            if_neg (fun hh => h2 (h1.symm.trans hh).symm)]
      · rw [show adInsert (kv :: d) k v = kv :: adInsert d k v from by rw [adInsert, if_neg h1]]
        by_cases h2 : kv.1 = t
        · have ht : ¬ t = k := fun hh => h1 (h2.trans hh)
          rw [alookup_cons, alookup_cons, if_pos h2, if_neg ht, if_pos h2]
        · rw [alookup_cons, alookup_cons, if_neg h2, ih]
          by_cases h3 : t = k
          · rw [if_pos h3, if_pos h3]
          · rw [if_neg h3, if_neg h3, if_neg h2]

theorem alookup_mem {K V : Type} [DecidableEq K] {d : List (K × V)} {k : K} {v : V}
    (h : alookup d k = some v) : (k, v) ∈ d := by
  induction d with
  | nil => simp [alookup] at h
  | cons kv d ih =>
      by_cases h1 : kv.1 = k
      · rw [show alookup (kv :: d) k = if kv.1 = k then some kv.2 else alookup d k from rfl,
          if_pos h1] at h
        injection h with h'
        subst h'
        rw [← h1]
        exact List.mem_cons_self _ _
      · rw [show alookup (kv :: d) k = if kv.1 = k then some kv.2 else alookup d k from rfl,
          if_neg h1] at h
        exact List.mem_cons_of_mem _ (ih h)

theorem alookup_append {K V : Type} [DecidableEq K] (d1 d2 : List (K × V)) (k : K) :
    alookup (d1 ++ d2) k = (alookup d1 k).or (alookup d2 k) := by
  induction d1 with
  | nil => simp [alookup]
  | cons kv d ih =>
      by_cases h : kv.1 = k
      · simp [alookup, h]
      · simp [alookup, h, ih]

/-- Looking up a key in a dict built by folding a step that either
leaves the dict alone or `adInsert`s an element's value: either the
initial dict already had the value, or some list element supplied it. -/
theorem alookup_foldl_of_step {A K V : Type} [DecidableEq K]
    (step : List (K × V) → A → List (K × V)) (val : A → V)
    (hstep : ∀ acc a, step acc a = acc ∨ ∃ k, step acc a = adInsert acc k (val a))
    (l : List A) :
    ∀ (d : List (K × V)) (t : K) (p : V),
      alookup (l.foldl step d) t = some p →
      alookup d t = some p ∨ ∃ a ∈ l, p = val a := by
  induction l with
  | nil =>
      intro d t p h
      exact Or.inl h
  | cons a l ih =>
      intro d t p h
      simp only [List.foldl_cons] at h
      rcases ih _ t p h with h' | ⟨a', ha', hv⟩
      · rcases hstep d a with hs | ⟨k, hs⟩
        · rw [hs] at h'
          exact Or.inl h'
        · rw [hs, alookup_adInsert] at h'
          by_cases ht : t = k
          · rw [if_pos ht] at h'
            cases h'
            exact Or.inr ⟨a, List.mem_cons_self a l, rfl⟩
          · rw [if_neg ht] at h'
            exact Or.inl h'
      · exact Or.inr ⟨a', List.mem_cons_of_mem _ ha', hv⟩

/-! ### C1: REPLIES_TO edges -/

/-- Membership in the REPLIES_TO edge list coincides with the spec's
rule. -/
theorem repliesTo_mem (msgs : List Msg) (e : String × String) :
    e ∈ repliesToEdges msgs ↔ repliesToSpec msgs e := by
    unfold repliesToEdges repliesToSpec
    rw [List.mem_filterMap]
    constructor
    · rintro ⟨m, hm, hf⟩
      refine ⟨m, hm, ?_⟩
      unfold repliesToStep at hf
      cases h1 : optTruthy m.threadTs with
      | none =>
          rw [h1] at hf
          exact absurd hf (by simp)
      | some t =>
          rw [h1] at hf
          dsimp only at hf
          cases h2 : tsLookup msgs t with
          | none =>
              rw [h2] at hf
              exact absurd hf (by simp)
          | some p =>
              rw [h2] at hf
              dsimp only at hf
              by_cases h3 : p = m.id
              · rw [if_neg (fun hc => hc h3)] at hf
                cases hf
              · rw [if_pos h3] at hf
                injection hf with hf'
                subst hf'
                exact ⟨t, rfl, h2, rfl, h3⟩
    · rintro ⟨m, hm, t, h1, h2, h3, h4⟩
      refine ⟨m, hm, ?_⟩
      unfold repliesToStep
      rw [h1]
      dsimp only
      rw [h2]
      dsimp only
      rw [if_pos h4]
      exact congrArg some (Prod.ext h3.symm rfl)

/-- Any id stored in the timestamp map is the id of some message in
the list. -/
theorem tsLookup_mem {msgs : List Msg} {t p : String}
    (h : tsLookup msgs t = some p) : ∃ m ∈ msgs, p = m.id := by
  unfold tsLookup tsMap at h
  rcases alookup_foldl_of_step _ (fun m : Msg => m.id)
      (fun acc m => by
        cases optTruthy m.createdAt with
        | none => exact Or.inl rfl
        | some c => exact Or.inr ⟨stripZ c, rfl⟩)
      msgs [] t p h with h' | h'
  · cases h'
  · exact h'

/-- C1.  The Reference Linker's REPLIES_TO pass creates an edge from a
message to a parent exactly when the message has a non-null
thread-parent timestamp whose lookup in the `createdAt`-to-id map (UTC
marker stripped) succeeds with a parent id different from the
message's own id (`repliesToSpec` states the spec's rule); in
particular no edge is ever a self-edge, so a message whose
`threadParentTimestamp` equals its own `createdAt` never yields a
REPLIES_TO self-edge. -/
theorem replies_to_edge_iff (msgs : List Msg) (e : String × String) :
    (e ∈ repliesToEdges msgs ↔ repliesToSpec msgs e) ∧
    (e ∈ repliesToEdges msgs → e.1 ≠ e.2) := by
  refine ⟨repliesTo_mem msgs e, fun he => ?_⟩
  obtain ⟨m, _, t, _, _, h3, h4⟩ := (repliesTo_mem msgs e).mp he
  intro hq
  exact h4 (by rw [← hq, h3])

/-- C1 witness: in the concrete pair `msgParent`/`msgChild` the reply
edge `("c", "p")` is produced, it satisfies the spec's rule, and it is
not a self-edge. -/
theorem replies_to_edge_iff_witness :
    (("c", "p") ∈ repliesToEdges [msgParent, msgChild]) ∧
    ("c" : String) ≠ "p" ∧ repliesToSpec [msgParent, msgChild] ("c", "p") :=
  ⟨by decide,
   (replies_to_edge_iff [msgParent, msgChild] ("c", "p")).2 (by decide),
   (replies_to_edge_iff [msgParent, msgChild] ("c", "p")).1.mp (by decide)⟩

/-! ### C9: Identity Normalizer on unmapped records -/

/-- C9.  A user whose code-host handle has no entry in the curated
cross-reference table is returned by `add_slack_ids_to_users` exactly
as it came in, and a message whose messaging handle fails the reverse
lookup is returned by `enrich_slack_messages` exactly as it came in;
both functions are total (no error is signalled) and the list versions
are element-wise maps of these. -/
theorem identity_normalizer_unchanged (u : UserRec)
    (table : List (String × String × String)) (m : Msg) :
    ((∀ gl, u.githubLogin = some gl → alookup githubToSlackMapping gl = none) →
      addSlackIdToUser u = u) ∧
    (alookup table m.slackId = none → enrichSlackMessage table m = m) := by
  constructor
  · intro h
    unfold addSlackIdToUser
    cases hgl : u.githubLogin with
    | none => rfl
    | some gl =>
        dsimp only
        rw [h gl hgl]
  · intro h
    unfold enrichSlackMessage
    cases hs : optTruthy (some m.slackId) with
    | none => rfl
    | some sid =>
        have hsid : sid = m.slackId := by
          unfold optTruthy at hs
          dsimp only at hs
          by_cases he : m.slackId = ""
          · rw [if_pos he] at hs
            cases hs
          · rw [if_neg he] at hs
            injection hs with h'
            exact h'.symm
        dsimp only
        rw [hsid, h]

/-- C9 witness: the concrete unmapped user `userUnmapped` and the
message `msgParent` under an empty reverse-lookup table pass through
unchanged. -/
theorem identity_normalizer_unchanged_witness :
    addSlackIdToUser userUnmapped = userUnmapped ∧
    enrichSlackMessage [] msgParent = msgParent :=
  ⟨(identity_normalizer_unchanged userUnmapped [] msgParent).1
      (fun gl hgl => by
        injection hgl with h
        subst h
        decide),
   (identity_normalizer_unchanged userUnmapped [] msgParent).2 (by decide)⟩

/-! ### C6: REFERENCES (CodeChange → Ticket) -/

/-- C6.  For the batch with the single PR whose body is `"Fixes #42"`
and the single Ticket numbered 42, `create_relationships` emits
exactly one REFERENCES edge, with `referenceType = "fixes"`; and in
general every REFERENCES edge's `referenceType` is `"fixes"` when the
substring `"fixes"` occurs in the PR's lowercased body and
`"related"` otherwise. -/
theorem references_fixes_edge :
    referencesEdges [prFixes42] [issue42] = [⟨"pr-1", "issue-42", "fixes"⟩] ∧
    ∀ (prs : List PRRec) (issues : List IssueRec) (e : RefEdge),
      e ∈ referencesEdges prs issues →
      ∃ pr ∈ prs, e.prId = pr.id ∧
        e.referenceType =
          (if strContains (prBodyLower pr) "fixes" then "fixes" else "related") := by
  constructor
  · decide
  · intro prs issues e he
    unfold referencesEdges at he
    rw [List.mem_flatMap] at he
    obtain ⟨pr, hpr, hin⟩ := he
    refine ⟨pr, hpr, ?_⟩
    dsimp only at hin
    rw [List.mem_filterMap] at hin
    obtain ⟨iss, _, hf⟩ := hin
    cases hn : intTruthy iss.number with
    | none =>
        rw [hn] at hf
        cases hf
    | some n =>
        rw [hn] at hf
        dsimp only at hf
        by_cases hm :
            ((refPatterns n).any (fun pat => strContains (prBodyLower pr) pat)) = true
        · rw [if_pos hm] at hf
          injection hf with hf'
          subst hf'
          exact ⟨rfl, rfl⟩
        · rw [if_neg hm] at hf
          cases hf

/-- C6 witness: the `"Fixes #42"` edge is in the produced list and the
general `referenceType` law instantiates to it. -/
theorem references_fixes_edge_witness :
    ((⟨"pr-1", "issue-42", "fixes"⟩ : RefEdge) ∈ referencesEdges [prFixes42] [issue42]) ∧
    ∃ pr ∈ [prFixes42], (⟨"pr-1", "issue-42", "fixes"⟩ : RefEdge).prId = pr.id ∧
      (⟨"pr-1", "issue-42", "fixes"⟩ : RefEdge).referenceType =
        (if strContains (prBodyLower pr) "fixes" then "fixes" else "related") :=
  ⟨by decide, references_fixes_edge.2 [prFixes42] [issue42] _ (by decide)⟩

/-! ### C10: the join-message filter -/

/-- Membership in the filtered message list. -/
theorem mem_passMessages_false {msgs : List Msg} {m : Msg} :
    m ∈ passMessages false msgs ↔ m ∈ msgs ∧ isJoinMsg m = false := by
  simp [passMessages, List.mem_filter]

/-- Every AUTHORED edge's target is the id of a processed message. -/
theorem mem_authoredMsgEdges {l : List Msg} {e : String × String}
    (h : e ∈ authoredMsgEdges l) : ∃ m ∈ l, e.2 = m.id := by
  unfold authoredMsgEdges at h
  rw [List.mem_filterMap] at h
  obtain ⟨m, hm, hf⟩ := h
  cases ha : optTruthy m.authorId with
  | none =>
      rw [ha] at hf
      cases hf
  | some a =>
      rw [ha] at hf
      injection hf with hf'
      exact ⟨m, hm, by rw [← hf']⟩

/-- Every POSTED_IN edge's source is the id of a processed message. -/
theorem mem_postedInEdges {l : List Msg} {e : String × String}
    (h : e ∈ postedInEdges l) : ∃ m ∈ l, e.1 = m.id := by
  unfold postedInEdges at h
  rw [List.mem_filterMap] at h
  obtain ⟨m, hm, hf⟩ := h
  cases hc : optTruthy m.channelId with
  | none =>
      rw [hc] at hf
      cases hf
  | some c =>
      rw [hc] at hf
      injection hf with hf'
      exact ⟨m, hm, by rw [← hf']⟩

/-- Every REFERENCES_GITHUB (or `_BY_AUTHOR`) edge a message produces
carries that message's id. -/
theorem mem_msgGhEdges_msgId {prs : List PRRec} {issues : List IssueRec} {m : Msg}
    {e : GhRef} (h : e ∈ msgGhEdges prs issues m) : e.msgId = m.id := by
  unfold msgGhEdges at h
  by_cases ht : lowerStr m.text = ""
  · rw [if_pos ht] at h
    cases h
  · rw [if_neg ht] at h
    dsimp only at h
    rcases List.mem_append.mp h with h' | h'
    · rcases List.mem_append.mp h' with h'' | h''
      · rcases List.mem_append.mp h'' with h3 | h3
        · rw [List.mem_filterMap] at h3
          obtain ⟨nid, _, hf⟩ := h3
          by_cases hp : ((prPatterns nid.1).any (fun pat => strContains (lowerStr m.text) pat)) = true
          · rw [if_pos hp] at hf
            injection hf with hf'
            rw [← hf']
          · rw [if_neg hp] at hf
            cases hf
        · rw [List.mem_filterMap] at h3
          obtain ⟨nid, _, hf⟩ := h3
          by_cases hp : ((issuePatterns nid.1).any (fun pat => strContains (lowerStr m.text) pat)) = true
          · rw [if_pos hp] at hf
            injection hf with hf'
            rw [← hf']
          · rw [if_neg hp] at hf
            cases hf
      · cases ha : optTruthy m.authorLogin with
        | none =>
            rw [ha] at h''
            cases h''
        | some a =>
            rw [ha] at h''
            rw [List.mem_map] at h''
            obtain ⟨pid, _, hf⟩ := h''
            rw [← hf]
    · cases ha : optTruthy m.authorLogin with
      | none =>
          rw [ha] at h'
          cases h'
      | some a =>
          rw [ha] at h'
          rw [List.mem_map] at h'
          obtain ⟨iid, _, hf⟩ := h'
          rw [← hf]

/-- C10.  Without `--include-all-messages`, a `slackMessages` record
whose text ends with `"has joined the channel"` is excluded from
node import (the same filter is applied before `import_nodes` writes
Message nodes) and from every message relationship pass — AUTHORED,
POSTED_IN, REPLIES_TO and REFERENCES_GITHUB (including the
`_BY_AUTHOR` variant): no produced edge touches the join message's id,
provided no non-join message shares its id. -/
theorem join_messages_excluded (msgs : List Msg) (prs : List PRRec)
    (issues : List IssueRec) (J : Msg) (_hJ : J ∈ msgs) (hjoin : isJoinMsg J = true)
    (hid : ∀ m ∈ msgs, isJoinMsg m = false → m.id ≠ J.id) :
    J ∉ passMessages false msgs ∧
    (∀ e ∈ authoredMsgEdges (passMessages false msgs), e.2 ≠ J.id) ∧
    (∀ e ∈ postedInEdges (passMessages false msgs), e.1 ≠ J.id) ∧
    (∀ e ∈ repliesToEdges (passMessages false msgs), e.1 ≠ J.id ∧ e.2 ≠ J.id) ∧
    (∀ e ∈ ghRefEdges (passMessages false msgs) prs issues, e.msgId ≠ J.id) := by
  have hne : ∀ m ∈ passMessages false msgs, m.id ≠ J.id := by
    intro m hm
    obtain ⟨hm', hj⟩ := mem_passMessages_false.mp hm
    exact hid m hm' hj
  refine ⟨?_, ?_, ?_, ?_, ?_⟩
  · intro hc
    obtain ⟨_, hj⟩ := mem_passMessages_false.mp hc
    rw [hjoin] at hj
    cases hj
  · intro e he
    obtain ⟨m, hm, hq⟩ := mem_authoredMsgEdges he
    rw [hq]
    exact hne m hm
  · intro e he
    obtain ⟨m, hm, hq⟩ := mem_postedInEdges he
    rw [hq]
    exact hne m hm
  · intro e he
    obtain ⟨m, hm, t, _, hts, h1, _⟩ := (repliesTo_mem _ e).mp he
    constructor
    · rw [h1]
      exact hne m hm
    · obtain ⟨m', hm', hq⟩ := tsLookup_mem hts
      rw [hq]
      exact hne m' hm'
  · intro e he
    unfold ghRefEdges at he
    rw [List.mem_flatMap] at he
    obtain ⟨m, hm, hin⟩ := he
    rw [mem_msgGhEdges_msgId hin]
    exact hne m hm

/-- C10 witness: the concrete join message `msgJoin` (which has an
author and a channel, so it would otherwise produce edges) is dropped
and no REPLIES_TO edge touches it. -/
theorem join_messages_excluded_witness :
    msgJoin ∉ passMessages false [msgJoin, msgParent, msgChild] ∧
    (∀ e ∈ repliesToEdges (passMessages false [msgJoin, msgParent, msgChild]),
      e.1 ≠ msgJoin.id ∧ e.2 ≠ msgJoin.id) :=
  ⟨(join_messages_excluded [msgJoin, msgParent, msgChild] [prFixes42] [issue42]
      msgJoin (by decide) (by decide) (by decide)).1,
   (join_messages_excluded [msgJoin, msgParent, msgChild] [prFixes42] [issue42]
      msgJoin (by decide) (by decide) (by decide)).2.2.2.1⟩

/-! ### C4, C5: Record Formatter -/

theorem isPrefixL_append_self : ∀ (p s : List Char), isPrefixL p (p ++ s) = true := by
  intro p
  induction p with
  | nil =>
      intro s
      rfl
  | cons c cs ih =>
      intro s
      simp [isPrefixL, ih]

/-- A string starts with any of its own prefixes. -/
theorem startsWith_append (p s : String) : startsWith (p ++ s) p = true := by
  unfold startsWith
  rw [String.data_append]
  exact isPrefixL_append_self p.data s.data

/-- C4 counterexample: formatting the raw pull request `rawPR55` (raw
id `55`) yields the output id `"55"`, a bare string that contains no
`'-'` at all and hence carries no entity-type prefix — the claim's
"every identifier field ... including the pull request's own id" fails
here (while `authorId` does get its `user-` prefix). -/
theorem pr_id_unprefixed :
    (formatPR rawPR55 "octo" "proj").id = "55" ∧
    hasTypePrefix (formatPR rawPR55 "octo" "proj").id = false ∧
    (formatPR rawPR55 "octo" "proj").authorId = some "user-9" := by
  refine ⟨rfl, ?_, rfl⟩
  decide

/-- C4 (amended).  Every identifier field produced by the Record
Formatter is type-prefixed — issue ids with `issue-`, repository ids
with `repo-`, contributor ids with `user-`, a PR's `authorId` with
`user-` and its `repositoryId` with `repo-` — EXCEPT the pull
request's own id, which is the raw id coerced to a string with no
prefix. -/
theorem formatter_id_prefixes (raw contrib ud : RawRec) (owner repo : String) :
    startsWith (formatIssue raw owner repo).id "issue-" = true ∧
    startsWith (formatRepo raw).id "repo-" = true ∧
    startsWith (formatContributor contrib ud).id "user-" = true ∧
    startsWith (formatPR raw owner repo).repositoryId "repo-" = true ∧
    (∀ a, (formatPR raw owner repo).authorId = some a → startsWith a "user-" = true) ∧
    (formatPR raw owner repo).id = pyStrOf (pyGet raw "id" (.pystr "")) := by
  refine ⟨startsWith_append _ _, startsWith_append _ _, startsWith_append _ _, ?_, ?_, rfl⟩
  · show startsWith ("repo-" ++ owner ++ "-" ++ repo) "repo-" = true
    rw [String.append_assoc, String.append_assoc]
    exact startsWith_append _ _
  · intro a ha
    unfold formatPR rawAuthorId at ha
    dsimp only at ha
    cases hu : pyGet raw "user" .pynone with
    | pydict u =>
        rw [hu] at ha
        dsimp only at ha
        by_cases he : u.isEmpty = true
        · rw [if_pos he] at ha
          cases ha
        · rw [if_neg he] at ha
          injection ha with ha'
          rw [← ha']
          exact startsWith_append _ _
    | pynone =>
        rw [hu] at ha
        cases ha
    | pystr s =>
        rw [hu] at ha
        cases ha
    | pyint n =>
        rw [hu] at ha
        cases ha

/-- C4 witness: the amended law instantiated at the concrete raw
records, with the `authorId` hypothesis discharged at `"user-9"`. -/
theorem formatter_id_prefixes_witness :
    startsWith (formatIssue rawPR55 "octo" "proj").id "issue-" = true ∧
    startsWith (formatPR rawPR55 "octo" "proj").repositoryId "repo-" = true ∧
    startsWith "user-9" "user-" = true :=
  ⟨(formatter_id_prefixes rawPR55 rawPR55 rawPR55 "octo" "proj").1,
   (formatter_id_prefixes rawPR55 rawPR55 rawPR55 "octo" "proj").2.2.2.1,
   (formatter_id_prefixes rawPR55 rawPR55 rawPR55 "octo" "proj").2.2.2.2.1
      "user-9" (by decide)⟩

/-- C5 counterexample: a raw pull request whose `body` key is present
but null formats to a record whose `body` IS null, not the empty
string — `pr.get("body", "")` only defaults when the key is missing.
(The importer works around this with `pr.get("body", "") or ""`.) -/
theorem pr_body_null_passthrough :
    (formatPR rawPRNullBody "o" "r").body = PyVal.pynone ∧
    isPyStr (formatPR rawPRNullBody "o" "r").body = false :=
  ⟨rfl, rfl⟩

/-- C5 (amended).  A MISSING `body`/`description` field defaults to
the empty string; a field that is present (even null) is passed
through unchanged; and the downstream REFERENCES matcher normalizes a
null body to `""` itself. -/
theorem optional_text_defaults (raw : RawRec) (owner repo : String) :
    (alookup raw "body" = none → (formatPR raw owner repo).body = .pystr "") ∧
    ((formatPR raw owner repo).body = pyGet raw "body" (.pystr "")) ∧
    (alookup raw "description" = none → (formatRepo raw).description = .pystr "") ∧
    (∀ pr : PRRec, pr.body = none → prBodyLower pr = "") := by
  refine ⟨?_, rfl, ?_, ?_⟩
  · intro h
    show pyGet raw "body" (.pystr "") = .pystr ""
    unfold pyGet
    rw [h]
    rfl
  · intro h
    show pyGet raw "description" (.pystr "") = .pystr ""
    unfold pyGet
    rw [h]
    rfl
  · intro pr h
    unfold prBodyLower
    rw [h]
    rfl

/-- C5 witness: the amended law instantiated at a raw record with no
`body`/`description` key and at a PR record with a null body. -/
theorem optional_text_defaults_witness :
    (formatPR [("id", .pyint 3)] "o" "r").body = .pystr "" ∧
    (formatRepo [("id", .pyint 3)]).description = .pystr "" ∧
    prBodyLower ⟨"x", none, none, none, none, none⟩ = "" :=
  ⟨(optional_text_defaults [("id", .pyint 3)] "o" "r").1 rfl,
   (optional_text_defaults [("id", .pyint 3)] "o" "r").2.2.1 rfl,
   (optional_text_defaults [("id", .pyint 3)] "o" "r").2.2.2
      ⟨"x", none, none, none, none, none⟩ rfl⟩

/-! ### C2: Retrieval Router with no embedded index -/

/-- C2 counterexample: with every embedded count zero, the router does
not return a "no index available" error result — it returns the
ordinary selection `("TextChunk", "textchunk_vector_idx", "Default
fallback")`, whose reason string never mentions a missing index (and
the source function's return type is a bare triple, so no other error
channel exists). -/
theorem router_no_index_counterexample :
    determine_best_node_type "who reported the bug" availAllZero =
      ("TextChunk", "textchunk_vector_idx", "Default fallback") ∧
    isNoIndexResult (determine_best_node_type "who reported the bug" availAllZero) = false := by
  constructor
  · decide
  · decide

/-- C2 (amended).  For every query and every availability map in which
no entity type has an embedded member, the router neither raises nor
reports a "no index" state: it falls through every branch and returns
the ordinary default selection
`("TextChunk", "textchunk_vector_idx", "Default fallback")`. -/
theorem router_all_unembedded_default (q : String) (avail : List (String × Nat))
    (h : ∀ kv ∈ avail, kv.2 = 0) :
    determine_best_node_type q avail =
      ("TextChunk", "textchunk_vector_idx", "Default fallback") := by
  have hpos : ∀ nt, availPos avail nt = false := by
    intro nt
    unfold availPos
    cases ha : alookup avail nt with
    | none => rfl
    | some n =>
        have : n = 0 := h _ (alookup_mem ha)
        subst this
        rfl
  have hget : ∀ nt, availGetD avail nt = 0 := by
    intro nt
    unfold availGetD
    cases ha : alookup avail nt with
    | none => rfl
    | some n =>
        have : n = 0 := h _ (alookup_mem ha)
        subst this
        rfl
  unfold determine_best_node_type
  rw [hpos "Issue", hpos "PullRequest", hpos "Message"]
  simp only [Bool.false_and, if_false, Bool.false_eq_true]
  have hscores : (nodeTypeKeywords.foldl
      (fun sc ntk =>
        if availPos avail ntk.1 then
          ntk.2.foldl (fun sc' kw => if strContains (lowerStr q) kw then bumpScore sc' ntk.1 else sc') sc
        else sc)
      (avail.map (fun kv => (kv.1, 0)))) = avail.map (fun kv => (kv.1, 0)) := by
    simp only [nodeTypeKeywords, List.foldl_cons, List.foldl_nil, hpos, Bool.false_eq_true,
      if_false]
  rw [hscores]
  have hfold : ∀ (sc : List (String × Nat)),
      (sc.foldl
        (fun (st : Int × Option String) kv =>
          if (kv.2 : Int) > st.1 && availGetD avail kv.1 > 0 then ((kv.2 : Int), some kv.1) else st)
        (-1, none)) = ((-1 : Int), (none : Option String)) := by
    intro sc
    have hstep : ∀ (st : Int × Option String) (kv : String × Nat),
        (if (kv.2 : Int) > st.1 && availGetD avail kv.1 > 0 then ((kv.2 : Int), some kv.1) else st)
          = st := by
      intro st kv
      rw [hget kv.1]
      simp
    induction sc with
    | nil => rfl
    | cons kv sc ih =>
        rw [List.foldl_cons, hstep, ih]
  rw [hfold]
  dsimp only
  have hfind : (["TextChunk", "PullRequest", "Issue", "Message"].find? (availPos avail)) = none := by
    simp [List.find?, hpos]
  rw [hfind]

/-- C2 witness: the amended law applied to the concrete all-zero
availability map. -/
theorem router_all_unembedded_default_witness :
    (∀ kv ∈ availAllZero, kv.2 = 0) ∧
    determine_best_node_type "q" availAllZero =
      ("TextChunk", "textchunk_vector_idx", "Default fallback") :=
  ⟨by decide, router_all_unembedded_default "q" availAllZero (by decide)⟩

/-! ### C7: Graph Writer node upsert -/

theorem any_key_eq_isSome {K V : Type} [DecidableEq K] (d : List (K × V)) (k : K) :
    (d.any (fun kv => kv.1 = k)) = (alookup d k).isSome := by
  induction d with
  | nil => rfl
  | cons kv d ih =>
      rw [List.any_cons, alookup_cons]
      by_cases h : kv.1 = k
      · simp [h]
      · simp [h, ih]

theorem alookup_filter_key {K V : Type} [DecidableEq K] (q : K → Bool)
    (d : List (K × V)) (k : K) :
    alookup (d.filter (fun kv => q kv.1)) k = if q k then alookup d k else none := by
  induction d with
  | nil =>
      cases q k <;> simp [alookup]
  | cons kv d ih =>
      by_cases hq : q kv.1 = true
      · rw [List.filter_cons_of_pos (p := fun kv : K × V => q kv.1) (a := kv) hq,
          alookup_cons, alookup_cons]
        by_cases hk : kv.1 = k
        · have hqk : q k = true := hk ▸ hq
          rw [if_pos hk, if_pos hqk, if_pos hk]
        · rw [if_neg hk, if_neg hk, ih]
      · rw [List.filter_cons_of_neg (p := fun kv : K × V => q kv.1) (a := kv) hq, ih,
          alookup_cons]
        by_cases hk : kv.1 = k
        · rw [← hk, if_neg (by simpa using hq), if_neg (by simpa using hq)]
        · rw [if_neg hk]

/-- The property lookup after Cypher `SET n += $new`: keys present in
`new` take `new`'s value, all other keys keep `old`'s. -/
theorem getProp_setPlus (old new : PropMap) (k : String) :
    getProp (setPlus old new) k = if hasKey new k then getProp new k else getProp old k := by
  unfold setPlus getProp hasKey
  rw [alookup_append,
    show (fun kv : String × String => !(new.any (fun kv' => kv'.1 = kv.1))) =
      (fun kv : String × String => (fun x => !(new.any (fun kv' => kv'.1 = x))) kv.1) from rfl,
    alookup_filter_key (fun x => !(new.any (fun kv' => kv'.1 = x))) old k,
    any_key_eq_isSome]
  unfold getProp
  cases ha : alookup new k with
  | none => simp [ha]
  | some v => simp [ha]

theorem getProp_none_of_hasKey_false {p : PropMap} {k : String}
    (h : hasKey p k = false) : getProp p k = none := by
  unfold hasKey at h
  cases hp : getProp p k with
  | none => rfl
  | some v =>
      rw [hp] at h
      cases h

/-- C7 counterexample: two successive `create_node` calls with the
same id — first `{id: "x", a: "1"}`, then `{id: "x", b: "2"}` — leave
property `a = "1"` on the node.  `SET n += $properties` retains
first-call properties absent from the second call, so the write is NOT
a whole-property-set last-write-wins. -/
theorem create_node_retains_old_property :
    propOf ((create_node ((create_node [] "User" [("id", "x"), ("a", "1")]).1)
        "User" [("id", "x"), ("b", "2")]).1) "User" "x" "a" = some "1" := by
  decide

/-- C7 (amended).  `create_node` merges keyed on `(label,
properties.id)`, and the second call's properties overwrite
field-by-field: a key present in the second call takes the second
call's value, and a key absent from the second call RETAINS the first
call's value (Cypher `SET n += $properties`), rather than the whole
property set being replaced. -/
theorem create_node_property_merge (label id k : String) (p1 p2 : PropMap)
    (h1 : getProp p1 "id" = some id) (h2 : getProp p2 "id" = some id) (hid : id ≠ "") :
    (hasKey p2 k = true →
      propOf ((create_node ((create_node [] label p1).1) label p2).1) label id k
        = getProp p2 k) ∧
    (hasKey p2 k = false →
      propOf ((create_node ((create_node [] label p1).1) label p2).1) label id k
        = getProp p1 k) := by
  have hopt1 : optTruthy (getProp p1 "id") = some id := by
    rw [h1]
    unfold optTruthy
    dsimp only
    rw [if_neg hid]
  have hopt2 : optTruthy (getProp p2 "id") = some id := by
    rw [h2]
    unfold optTruthy
    dsimp only
    rw [if_neg hid]
  have hk1 : hasKey p1 "id" = true := by
    unfold hasKey
    rw [h1]
    rfl
  have hk2 : hasKey p2 "id" = true := by
    unfold hasKey
    rw [h2]
    rfl
  have hstep1 : (create_node [] label p1).1 = [⟨label, setPlus [("id", id)] p1⟩] := by
    unfold create_node
    rw [hopt1]
    rfl
  have hid1 : getProp (setPlus [("id", id)] p1) "id" = some id := by
    rw [getProp_setPlus, if_pos hk1, h1]
  have hmatch1 : nodeMatches label id ⟨label, setPlus [("id", id)] p1⟩ = true := by
    unfold nodeMatches
    rw [hid1]
    simp
  have hstep2 : (create_node [⟨label, setPlus [("id", id)] p1⟩] label p2).1 =
      [⟨label, setPlus (setPlus [("id", id)] p1) p2⟩] := by
    unfold create_node
    rw [hopt2]
    simp [hmatch1]
  have hid2 : getProp (setPlus (setPlus [("id", id)] p1) p2) "id" = some id := by
    rw [getProp_setPlus, if_pos hk2, h2]
  have hmatch2 : nodeMatches label id ⟨label, setPlus (setPlus [("id", id)] p1) p2⟩ = true := by
    unfold nodeMatches
    rw [hid2]
    simp
  have hprops : propOf ((create_node ((create_node [] label p1).1) label p2).1) label id k =
      getProp (setPlus (setPlus [("id", id)] p1) p2) k := by
    rw [hstep1, hstep2]
    unfold propOf findNodeProps
    rw [List.find?_cons_of_pos _ hmatch2]
    rfl
  constructor
  · intro hin
    rw [hprops, getProp_setPlus, if_pos hin]
  · intro hout
    rw [hprops, getProp_setPlus, hout, if_neg (by simp), getProp_setPlus]
    by_cases hp1 : hasKey p1 k = true
    · rw [if_pos hp1]
    · have hkid : ¬ ("id" = k) := by
        intro hh
        rw [← hh, hk1] at hp1
        exact hp1 rfl
      have hfalse : hasKey p1 k = false := by simpa using hp1
      rw [if_neg hp1, getProp_none_of_hasKey_false (p := p1) hfalse]
      show (if ("id" : String) = k then some id else none) = none
      rw [if_neg hkid]

/-- C7 witness: the amended field-merge law at concrete property
maps — the overwritten key takes the second value, the missing key
keeps the first value. -/
theorem create_node_property_merge_witness :
    propOf ((create_node ((create_node [] "User" [("id", "x"), ("a", "1"), ("c", "3")]).1)
        "User" [("id", "x"), ("c", "9")]).1) "User" "x" "c" = some "9" ∧
    propOf ((create_node ((create_node [] "User" [("id", "x"), ("a", "1"), ("c", "3")]).1)
        "User" [("id", "x"), ("c", "9")]).1) "User" "x" "a" = some "1" := by
  constructor
  · rw [(create_node_property_merge "User" "x" "c" [("id", "x"), ("a", "1"), ("c", "3")]
      [("id", "x"), ("c", "9")] (by decide) (by decide) (by decide)).1 (by decide)]
    decide
  · rw [(create_node_property_merge "User" "x" "a" [("id", "x"), ("a", "1"), ("c", "3")]
      [("id", "x"), ("c", "9")] (by decide) (by decide) (by decide)).2 (by decide)]
    decide

/-! ### C3: Deduplicator survivor selection -/

theorem find?_eq_head?_filter {α : Type} (p : α → Bool) (l : List α) :
    l.find? p = (l.filter p).head? := by
  induction l with
  | nil => rfl
  | cons a l ih =>
      cases hp : p a
      · rw [List.find?_cons_of_neg _ (by simp [hp]),
          List.filter_cons_of_neg (by simp [hp]), ih]
      · rw [List.find?_cons_of_pos _ hp, List.filter_cons_of_pos hp, List.head?_cons]

theorem dedupKey_zero_or_one (m : Msg) : dedupKey m = 0 ∨ dedupKey m = 1 := by
  unfold dedupKey
  by_cases h : startsWith m.slackId "U" = true
  · exact Or.inr (if_pos h)
  · exact Or.inl (if_neg h)

theorem dedupKey_eq_zero_iff (m : Msg) :
    dedupKey m = 0 ↔ (!startsWith m.slackId "U") = true := by
  unfold dedupKey
  by_cases h : startsWith m.slackId "U" = true
  · simp [h]
  · simp [h]

theorem orderedInsert_key_zero (m : Msg) (h : dedupKey m = 0) (l : List Msg) :
    List.orderedInsert (fun a b => dedupKey a ≤ dedupKey b) m l = m :: l := by
  cases l with
  | nil => rfl
  | cons b bs =>
      unfold List.orderedInsert
      rw [if_pos (by rw [h]; exact Nat.zero_le _)]

theorem orderedInsert_key_one (m : Msg) (h : dedupKey m = 1) :
    ∀ (xs ys : List Msg), (∀ x ∈ xs, dedupKey x = 0) → (∀ y ∈ ys, dedupKey y = 1) →
      List.orderedInsert (fun a b => dedupKey a ≤ dedupKey b) m (xs ++ ys) = xs ++ m :: ys := by
  intro xs
  induction xs with
  | nil =>
      intro ys _ hys
      cases ys with
      | nil => rfl
      | cons y ys' =>
          rw [List.nil_append]
          show (if dedupKey m ≤ dedupKey y then m :: y :: ys'
              else y :: List.orderedInsert (fun a b => dedupKey a ≤ dedupKey b) m ys') =
            [] ++ m :: y :: ys'
          rw [if_pos (by rw [h, hys y (List.mem_cons_self _ _)]), List.nil_append]
  | cons x xs' ih =>
      intro ys hxs hys
      rw [List.cons_append]
      unfold List.orderedInsert
      rw [if_neg (by
        rw [h, hxs x (List.mem_cons_self _ _)]
        omega)]
      rw [ih ys (fun x' hx' => hxs x' (List.mem_cons_of_mem _ hx')) hys, List.cons_append]

/-- The stable sort of a duplicate group by the `startswith("U")` key
is: the non-`U` members in encounter order, then the `U` members in
encounter order. -/
theorem dedupSortGroup_eq (g : List Msg) :
    dedupSortGroup g =
      g.filter (fun m => dedupKey m = 0) ++ g.filter (fun m => dedupKey m = 1) := by
  unfold dedupSortGroup
  induction g with
  | nil => rfl
  | cons m g ih =>
      show List.orderedInsert _ m (List.insertionSort _ g) = _
      rw [ih]
      rcases dedupKey_zero_or_one m with h | h
      · rw [orderedInsert_key_zero m h,
          List.filter_cons_of_pos (by simp [h]),
          List.filter_cons_of_neg (by simp [h]),
          List.cons_append]
      · rw [orderedInsert_key_one m h
            (g.filter (fun m => dedupKey m = 0)) (g.filter (fun m => dedupKey m = 1))
            (fun x hx => by simpa using (List.mem_filter.mp hx).2)
            (fun y hy => by simpa using (List.mem_filter.mp hy).2),
          List.filter_cons_of_neg (by simp [h]),
          List.filter_cons_of_pos (by simp [h])]

/-- C3 counterexample: `msgDupA` and `msgDupB` share the dedup content
key `(text, channelId, createdAt)` and both carry human-readable
handles, yet the two orderings of the same two-element group yield
DIFFERENT survivors — the survivor depends on input order, so it is
not invariant under permutation. -/
theorem dedup_survivor_order_dependent :
    (msgDupA.text, msgDupA.channelId, msgDupA.createdAt) =
      (msgDupB.text, msgDupB.channelId, msgDupB.createdAt) ∧
    List.Perm [msgDupB, msgDupA] [msgDupA, msgDupB] ∧
    dedupSurvivor [msgDupA, msgDupB] = some msgDupA ∧
    dedupSurvivor [msgDupB, msgDupA] = some msgDupB ∧
    msgDupA ≠ msgDupB :=
  ⟨by decide, List.Perm.swap msgDupA msgDupB [], by decide, by decide, by decide⟩

/-- C3 (amended).  The Deduplicator's survivor of a duplicate group is
the FIRST record in encounter order whose handle does not match the
raw platform-id pattern (`startswith("U")`), falling back to the first
record of the group when every handle matches it — i.e. deterministic
for a given input sequence (first-seen tie-break), but not
permutation-invariant. -/
theorem dedup_survivor_first_seen (g : List Msg) :
    dedupSurvivor g = ((g.find? (fun m => !startsWith m.slackId "U")).or g.head?) := by
  unfold dedupSurvivor
  rw [dedupSortGroup_eq, List.head?_append]
  have hpred : (fun m : Msg => decide (dedupKey m = 0)) =
      (fun m : Msg => !startsWith m.slackId "U") := by
    funext m
    rcases hb : startsWith m.slackId "U" with _ | _
    · simp [dedupKey, hb]
    · simp [dedupKey, hb]
  cases hf : g.filter (fun m => dedupKey m = 0) with
  | nil =>
      have hnone : g.find? (fun m => !startsWith m.slackId "U") = none := by
        rw [find?_eq_head?_filter, ← hpred, hf]
        rfl
      have hall : g.filter (fun m => dedupKey m = 1) = g := by
        rw [List.filter_eq_self]
        intro m hm
        rcases dedupKey_zero_or_one m with h | h
        · exfalso
          have : m ∈ g.filter (fun m : Msg => decide (dedupKey m = 0)) :=
            List.mem_filter.mpr ⟨hm, by simp [h]⟩
          rw [hf] at this
          cases this
        · simp [h]
      rw [hnone, hall]
      rfl
  | cons x xs =>
      have hfind : g.find? (fun m => !startsWith m.slackId "U") = some x := by
        rw [find?_eq_head?_filter, ← hpred, hf]
        rfl
      rw [hfind]
      rfl

/-! ### C8: thread re-sort ordering -/

theorem firstSeenKeys_step_subset (acc : List String) (m : Msg) :
    acc ⊆ (if threadKey m ∈ acc then acc else acc ++ [threadKey m]) := by
  by_cases h : threadKey m ∈ acc
  · rw [if_pos h]
    exact fun x hx => hx
  · rw [if_neg h]
    exact List.subset_append_left _ _

theorem firstSeenKeys_foldl_subset (msgs : List Msg) :
    ∀ acc : List String,
      acc ⊆ msgs.foldl (fun ks m => if threadKey m ∈ ks then ks else ks ++ [threadKey m]) acc := by
  induction msgs with
  | nil =>
      intro acc
      exact fun x hx => hx
  | cons m ms ih =>
      intro acc
      rw [List.foldl_cons]
      exact List.Subset.trans (firstSeenKeys_step_subset acc m) (ih _)

theorem firstSeenKeys_foldl_nodup (msgs : List Msg) :
    ∀ acc : List String, acc.Nodup →
      (msgs.foldl (fun ks m => if threadKey m ∈ ks then ks else ks ++ [threadKey m]) acc).Nodup := by
  induction msgs with
  | nil =>
      intro acc h
      exact h
  | cons m ms ih =>
      intro acc h
      rw [List.foldl_cons]
      refine ih _ ?_
      by_cases hm : threadKey m ∈ acc
      · rw [if_pos hm]
        exact h
      · rw [if_neg hm]
        simp [List.nodup_append, h, hm]

theorem firstSeenKeys_nodup (msgs : List Msg) : (firstSeenKeys msgs).Nodup :=
  firstSeenKeys_foldl_nodup msgs [] List.nodup_nil

theorem firstSeenKeys_covers (msgs : List Msg) :
    ∀ (acc : List String) (m : Msg), m ∈ msgs →
      threadKey m ∈ msgs.foldl (fun ks m => if threadKey m ∈ ks then ks else ks ++ [threadKey m]) acc := by
  induction msgs with
  | nil =>
      intro acc m hm
      cases hm
  | cons m' ms ih =>
      intro acc m hm
      rw [List.foldl_cons]
      rcases List.mem_cons.mp hm with h | h
      · subst h
        refine firstSeenKeys_foldl_subset ms _ ?_
        by_cases hmem : threadKey m ∈ acc
        · rw [if_pos hmem]
          exact hmem
        · rw [if_neg hmem]
          exact List.mem_append_right _ (List.mem_singleton.mpr rfl)
      · exact ih _ m h

theorem mem_firstSeenKeys (msgs : List Msg) (m : Msg) (hm : m ∈ msgs) :
    threadKey m ∈ firstSeenKeys msgs :=
  firstSeenKeys_covers msgs [] m hm

/-- Flattening pointwise-permuted groups yields permuted flattenings. -/
theorem flatten_map_perm_congr {K β : Type} (ks : List K) (f g : K → List β)
    (h : ∀ k ∈ ks, (f k).Perm (g k)) :
    ((ks.map f).flatten).Perm ((ks.map g).flatten) := by
  induction ks with
  | nil => exact List.Perm.refl _
  | cons k ks ih =>
      rw [List.map_cons, List.map_cons, List.flatten_cons, List.flatten_cons]
      exact (h k (List.mem_cons_self _ _)).append
        (ih (fun k' hk' => h k' (List.mem_cons_of_mem _ hk')))

/-- Partitioning a list by a key function over a duplicate-free,
covering key list and flattening recovers a permutation of the list. -/
theorem partition_flatten_perm {α K : Type} [DecidableEq K] (key : α → K) :
    ∀ (ks : List K) (l : List α), ks.Nodup → (∀ x ∈ l, key x ∈ ks) →
      ((ks.map (fun k => l.filter (fun x => key x = k))).flatten).Perm l := by
  intro ks
  induction ks with
  | nil =>
      intro l _ hcov
      have : l = [] := List.eq_nil_iff_forall_not_mem.mpr
        (fun x hx => absurd (hcov x hx) (List.not_mem_nil _))
      subst this
      exact List.Perm.refl _
  | cons k ks ih =>
      intro l hnd hcov
      rw [List.map_cons, List.flatten_cons]
      have hrest : ∀ k' ∈ ks,
          l.filter (fun x => key x = k') =
            (l.filter (fun x => !(decide (key x = k)))).filter (fun x => key x = k') := by
        intro k' hk'
        have hkk : k ≠ k' := by
          intro hh
          rw [hh] at hnd
          exact (List.nodup_cons.mp hnd).1 hk'
        rw [List.filter_filter]
        refine List.filter_congr ?_
        intro x _
        by_cases hx : key x = k'
        · simp [hx, hkk.symm]
        · simp [hx]
      rw [List.map_congr_left hrest]
      have hsub : ∀ x ∈ l.filter (fun x => !(decide (key x = k))), key x ∈ ks := by
        intro x hx
        obtain ⟨hxl, hxk⟩ := List.mem_filter.mp hx
        rcases List.mem_cons.mp (hcov x hxl) with h | h
        · exfalso
          simp only [h] at hxk
          simp at hxk
        · exact h
      have hperm2 := ih (l.filter (fun x => !(decide (key x = k))))
        (List.nodup_cons.mp hnd).2 hsub
      exact (List.Perm.append_left _ hperm2).trans (List.filter_append_perm _ l)

/-- Every member of a thread group has that group's thread key. -/
theorem mem_threadGroup_key {msgs : List Msg} {k : String} {m : Msg}
    (h : m ∈ threadGroup msgs k) : threadKey m = k := by
  unfold threadGroup at h
  have h' := (List.perm_insertionSort
    (fun a b => strLe (createdAtStr a) (createdAtStr b) = true) _).mem_iff.mp h
  simpa using (List.mem_filter.mp h').2

/-- A thread group is a permutation of the corresponding filter. -/
theorem threadGroup_perm (msgs : List Msg) (k : String) :
    (threadGroup msgs k).Perm (msgs.filter (fun m => threadKey m = k)) :=
  List.perm_insertionSort _ _

/-- C8 counterexample: for the two-message set `msgStandalone`
(createdAt `"2024"`, its own thread) and `msgOrphanReply` (an orphan
reply with thread key `"2020"` but createdAt `"2025"`), the re-sort
puts the orphan-reply group FIRST even though its first (only)
message's timestamp `"2025"` is later than the other group's `"2024"`
— groups are ordered by thread KEY, not by their first message's
timestamp. -/
theorem thread_groups_not_by_first_timestamp :
    sortMessages [msgStandalone, msgOrphanReply] = [msgOrphanReply, msgStandalone] ∧
    strLt (createdAtStr msgStandalone) (createdAtStr msgOrphanReply) = true ∧
    threadKey msgOrphanReply ≠ threadKey msgStandalone :=
  ⟨by decide, by decide, by decide⟩

/-- C8 (amended).  The post-dedup re-sort outputs a permutation of its
input in which messages with equal thread keys (the message's truthy
`threadTs`, else its own `createdAt`) are contiguous and sorted
chronologically by `createdAt`, and the groups appear in strictly
ascending order of their thread KEY — which coincides with the first
message's timestamp exactly when each group contains its thread
parent, but not for orphan replies. -/
theorem thread_sort_grouped_ordered (msgs : List Msg) :
    (sortMessages msgs).Perm msgs ∧
    (sortMessages msgs).Pairwise (fun a b =>
      strLt (threadKey a) (threadKey b) = true ∨
      (threadKey a = threadKey b ∧ strLe (createdAtStr a) (createdAtStr b) = true)) := by
  have hKperm : ((firstSeenKeys msgs).insertionSort (fun a b => strLe a b = true)).Perm
      (firstSeenKeys msgs) := List.perm_insertionSort _ _
  have hnodup : ((firstSeenKeys msgs).insertionSort (fun a b => strLe a b = true)).Nodup :=
    (hKperm.nodup_iff).mpr (firstSeenKeys_nodup msgs)
  constructor
  · show (((((firstSeenKeys msgs).insertionSort (fun a b => strLe a b = true))).map
      (threadGroup msgs)).flatten).Perm msgs
    refine (flatten_map_perm_congr _ (threadGroup msgs)
      (fun k => msgs.filter (fun m => threadKey m = k))
      (fun k _ => threadGroup_perm msgs k)).trans ?_
    refine ((hKperm.map (fun k => msgs.filter (fun m => threadKey m = k))).flatten).trans ?_
    exact partition_flatten_perm threadKey (firstSeenKeys msgs) msgs
      (firstSeenKeys_nodup msgs) (fun m hm => mem_firstSeenKeys msgs m hm)
  · show (((((firstSeenKeys msgs).insertionSort (fun a b => strLe a b = true))).map
      (threadGroup msgs)).flatten).Pairwise _
    rw [List.pairwise_flatten]
    constructor
    · intro gl hgl
      obtain ⟨k, _, rfl⟩ := List.mem_map.mp hgl
      have hsorted : (threadGroup msgs k).Pairwise
          (fun a b => strLe (createdAtStr a) (createdAtStr b) = true) :=
        List.sorted_insertionSort _ _
      refine hsorted.imp_of_mem ?_
      intro a b ha hb hab
      exact Or.inr ⟨(mem_threadGroup_key ha).trans (mem_threadGroup_key hb).symm, hab⟩
    · rw [List.pairwise_map]
      have hle : ((firstSeenKeys msgs).insertionSort
          (fun a b => strLe a b = true)).Pairwise (fun a b => strLe a b = true) :=
        List.sorted_insertionSort _ _
      have hne : ((firstSeenKeys msgs).insertionSort
          (fun a b => strLe a b = true)).Pairwise (fun a b => a ≠ b) := hnodup
      have hlt := (hle.and hne).imp
        (fun h => strLt_of_strLe_of_ne h.1 h.2)
      refine hlt.imp ?_
      intro k1 k2 h12 x hx y hy
      exact Or.inl (by
        rw [mem_threadGroup_key hx, mem_threadGroup_key hy]
        exact h12)

end Devatlas
